import Mathlib

/-!
Shallow embedding of the synchronization core of the Coding-Time-Tracker
repository.

The embedded code:
* `src/coding-time-tracker/src/firebase.ts` — class `FirebaseManager`:
  `mergeDayData`, `writeDayData`, `enqueue`, `drainOfflineQueue`,
  `looksLikeNetworkError`.
* `src/platform/src/app/api/track/route.ts` — the Mongoose static
  `Tracking.mergeTrackingData`.

Modelling decisions:
* JavaScript objects / `Map`s from language name to seconds are embedded as
  insertion-ordered association lists `List (String × Int)`.  `jsGet`, `jsSet`
  mirror JavaScript property read and property write (a write updates the
  first, and only, occurrence of a key in place, or appends a fresh key at the
  end — exactly the enumeration-order semantics of both plain objects and
  `Map`).  `jsGetD l k` mirrors the idiom `(obj[k] || 0)` /
  `(map.get(k) || 0)` on integer values.
* Numbers are embedded as `Int` (all arithmetic in the merged code paths is
  integer addition, `Math.max` and comparisons; no fractional values arise in
  the claims).
* The Firestore backend is embedded as a partial map
  `String → String → Option IDayData` keyed by `(userId, date)`; a remote call
  either succeeds (`RemoteResult.ok`) or raises an error carrying a message
  (`RemoteResult.throws msg`), which is the behaviour `writeDayData`'s
  `try/catch` distinguishes.  A call that throws leaves the store unchanged.
* `Date.now()` is embedded as a logical clock `clock : Nat` in the manager
  state, incremented at each enqueue.
* `writeDayData` returns `Bool` in the source (`true` on success, `false`
  otherwise).  The specification's `Outcome{Success, Queued, Failed}` is the
  observable triple (returned `true`) / (returned `false` and the delta was
  enqueued) / (returned `false` and nothing was enqueued); `callOutcome`
  computes it from the call's return value and its effect on the queue.
-/

/-- Interface `IDayData` from `types.ts`: one day's payload
`{date, totalSeconds, languages}`. -/
structure IDayData where
  date : String
  totalSeconds : Int
  languages : List (String × Int)
deriving DecidableEq, Repr

/-- Interface `IQueuedUpdate` from `types.ts`: a queued delta plus metadata, as built by
`FirebaseManager.enqueue`. -/
structure IQueuedUpdate where
  userId : String
  date : String
  data : IDayData
  timestamp : Nat
deriving DecidableEq, Repr

/-- JavaScript property read on an insertion-ordered object: the value at the
first (only) occurrence of the key. -/
def jsGet : List (String × Int) → String → Option Int
  | [], _ => none
  | (k', v) :: rest, k => if k' = k then some v else jsGet rest k

/-- The idiom `(obj[k] || 0)`: a missing key reads as `0`. -/
def jsGetD (l : List (String × Int)) (k : String) : Int :=
  (jsGet l k).getD 0

/-- JavaScript property write `obj[k] = v` / `map.set(k, v)`: update the
existing occurrence in place, else append the key at the end. -/
def jsSet : List (String × Int) → String → Int → List (String × Int)
  | [], k, v => [(k, v)]
  | (k', v') :: rest, k, v =>
    if k' = k then (k, v) :: rest else (k', v') :: jsSet rest k v

/-- The loop body of `FirebaseManager.mergeDayData`:
`for (const [lang, seconds] of Object.entries(incoming.languages))
   languages[lang] = (languages[lang] || 0) + seconds;`
starting from `{ ...existing.languages }`. -/
def addLangs (existing : List (String × Int)) :
    List (String × Int) → List (String × Int)
  | [] => existing
  | (lang, seconds) :: rest =>
    addLangs (jsSet existing lang (jsGetD existing lang + seconds)) rest

/-- Method `FirebaseManager.mergeDayData` (firebase.ts lines 207–219). -/
def mergeDayData (existing incoming : IDayData) : IDayData :=
  { date := existing.date
    totalSeconds := existing.totalSeconds + incoming.totalSeconds
    languages := addLangs existing.languages incoming.languages }

/-- Lower-casing of a message string, as `String.prototype.toLowerCase` acts
on the ASCII error messages the classifier inspects. -/
def lowerStr (s : String) : String :=
  ⟨s.data.map Char.toLower⟩

/-- Substring containment via successive `List.isPrefixOf` checks on character lists:
`msg.includes(pat)`. -/
def containsSub (pat : List Char) : List Char → Bool
  | [] => pat.isEmpty
  | c :: rest => pat.isPrefixOf (c :: rest) || containsSub pat rest

/-- Method `String.prototype.includes`. -/
def strIncludes (s pat : String) : Bool :=
  containsSub pat.data s.data

/-- Method `FirebaseManager.looksLikeNetworkError` (firebase.ts lines 272–284): the
lower-cased error description is sniffed for the six transient-failure
substrings. -/
def looksLikeNetworkError (msg : String) : Bool :=
  let m := lowerStr msg
  strIncludes m "network" ||
  strIncludes m "enotfound" ||
  strIncludes m "econnrefused" ||
  strIncludes m "etimedout" ||
  strIncludes m "timeout" ||
  strIncludes m "socket hang up"

/-- Outcome of one remote round-trip inside `writeDayData`'s `try` block:
either every Firestore call succeeds, or one of them throws an error whose
description is `msg`. -/
inductive RemoteResult where
  | ok
  | throws (msg : String)
deriving DecidableEq, Repr

/-- The mutable state of a `FirebaseManager` instance, plus the remote
document store it talks to.  `initialized`/`dbReady` embed the two null
checks `!this.initialized || !this.db`; `store` is the Firestore content at
`users/{userId}/days/{date}`; `clock` stands in for `Date.now()`. -/
structure ManagerState where
  initialized : Bool
  dbReady : Bool
  store : String → String → Option IDayData
  offlineQueue : List IQueuedUpdate
  clock : Nat

/-- Method `FirebaseManager.enqueue` (firebase.ts lines 223–231): push the update
with its metadata onto the offline queue. -/
def enqueue (st : ManagerState) (userId : String) (data : IDayData) :
    ManagerState :=
  { st with
    offlineQueue :=
      st.offlineQueue ++ [⟨userId, data.date, data, st.clock⟩]
    clock := st.clock + 1 }

/-- Point update of the document store at key `(userId, date)`. -/
def setStore (store : String → String → Option IDayData)
    (userId date : String) (r : IDayData) :
    String → String → Option IDayData :=
  fun u d => if u = userId ∧ d = date then some r else store u d

/-- Method `FirebaseManager.writeDayData` (firebase.ts lines 124–164), one call,
with the behaviour of the remote round-trip supplied as `remote`.
Returns the source's boolean together with the state after the call. -/
def writeDayData (remote : RemoteResult) (st : ManagerState)
    (userId : String) (data : IDayData) : Bool × ManagerState :=
  if !st.initialized || !st.dbReady then
    (false, enqueue st userId data)
  else
    match remote with
    | .ok =>
      match st.store userId data.date with
      | some stored =>
        (true, { st with
                  store := setStore st.store userId data.date
                    (mergeDayData stored data) })
      | none =>
        (true, { st with store := setStore st.store userId data.date data })
    | .throws msg =>
      if looksLikeNetworkError msg then
        (false, enqueue st userId data)
      else
        (false, st)

/-- The specification's `Outcome` enum for one `submit` call. -/
inductive Outcome where
  | Success
  | Queued
  | Failed
deriving DecidableEq, Repr

/-- Reads the spec-level outcome of one `writeDayData` call off its observable
behaviour: `true` ⇒ `Success`; `false` with the queue grown ⇒ `Queued`;
`false` with the queue untouched ⇒ `Failed`. -/
def callOutcome (before : ManagerState) (res : Bool × ManagerState) : Outcome :=
  if res.1 then .Success
  else if before.offlineQueue.length < res.2.offlineQueue.length then .Queued
  else .Failed

/-- The loop of `drainOfflineQueue` over the snapshot `batch`, the remote
behaviour of each successive `writeDayData` call supplied by `oracle` (the
return value is ignored by the loop, as in the source). -/
def drainLoop : List RemoteResult → List IQueuedUpdate → ManagerState →
    ManagerState
  | _, [], st => st
  | oracle, item :: rest, st =>
    drainLoop oracle.tail rest
      (writeDayData (oracle.headD .ok) st item.userId item.data).2

/-- Method `FirebaseManager.drainOfflineQueue` (firebase.ts lines 236–264):
snapshot the queue, clear it, then resubmit each snapshot item in order
through `writeDayData`. -/
def drainOfflineQueue (oracle : List RemoteResult) (st : ManagerState) :
    ManagerState :=
  if st.offlineQueue.isEmpty then st
  else drainLoop oracle st.offlineQueue { st with offlineQueue := [] }

/-- The `ITracking` document shape of `src/platform` (Mongoose model):
`languages` is a `Map<string, number>`, embedded like the objects above. -/
structure ITracking where
  userId : String
  date : String
  totalSeconds : Int
  languages : List (String × Int)
deriving DecidableEq, Repr

/-- The merge loop of `Tracking.mergeTrackingData` (route.ts model section):
`updatedLanguages.set(lang, Math.max(0, current + seconds))` over a copy of
the existing `Map`. -/
def addLangsClamped (existing : List (String × Int)) :
    List (String × Int) → List (String × Int)
  | [] => existing
  | (lang, seconds) :: rest =>
    addLangsClamped
      (jsSet existing lang (max 0 (jsGetD existing lang + seconds))) rest

/-- Static `Tracking.mergeTrackingData` (route.ts model section, lines 256–291):
merge into the found document, or create a new one from the request fields. -/
def mergeTrackingData (existing : Option ITracking) (userId date : String)
    (totalSeconds : Int) (languages : List (String × Int)) : ITracking :=
  match existing with
  | some ex =>
    { userId := ex.userId
      date := ex.date
      totalSeconds := ex.totalSeconds + totalSeconds
      languages := addLangsClamped ex.languages languages }
  | none =>
    { userId := userId
      date := date
      totalSeconds := totalSeconds
      languages := languages }

/-- Keys of a languages object are pairwise distinct (a JavaScript object or
`Map` holds each key once). -/
def keysNodup (l : List (String × Int)) : Prop :=
  (l.map Prod.fst).Nodup

instance (l : List (String × Int)) : Decidable (keysNodup l) := by
  unfold keysNodup; infer_instance

/-- Every per-language count in the object is non-negative. -/
def valsNonneg (l : List (String × Int)) : Prop :=
  ∀ kv ∈ l, 0 ≤ kv.2

instance (l : List (String × Int)) : Decidable (valsNonneg l) := by
  unfold valsNonneg; infer_instance

/-- Total seconds a delta's languages object contributes to key `k`: the sum
of the values at every occurrence of `k` (a proof-side accounting device; on
duplicate-free objects it coincides with `jsGetD`). -/
def sumAt : List (String × Int) → String → Int
  | [], _ => 0
  | (k', v) :: rest, k => (if k' = k then v else 0) + sumAt rest k

/-- The empty Firestore content. -/
def store0 : String → String → Option IDayData := fun _ _ => none

/-- Sample stored day record (the spec's merge scenario). -/
def dayE : IDayData := ⟨"2024-01-01", 120, [("go", 120)]⟩

/-- Sample incoming delta (the spec's merge scenario). -/
def dayD : IDayData := ⟨"2024-01-01", 30, [("go", 10), ("rust", 20)]⟩

/-- Firestore content holding `dayE` at `users/u1/days/2024-01-01`. -/
def store1 : String → String → Option IDayData :=
  fun u d => if u = "u1" ∧ d = "2024-01-01" then some dayE else none

/-- A ready manager over an empty store. -/
def st0 : ManagerState := ⟨true, true, store0, [], 0⟩

/-- A ready manager over `store1`. -/
def st1 : ManagerState := ⟨true, true, store1, [], 0⟩

/-- A manager whose backend connection was never established. -/
def stOff : ManagerState := ⟨false, false, store0, [], 0⟩

/-- Sample queued update A. -/
def qA : IQueuedUpdate := ⟨"u1", "2024-01-01", dayE, 0⟩

/-- Sample queued update B. -/
def qB : IQueuedUpdate := ⟨"u1", "2024-01-02", ⟨"2024-01-02", 45, [("ts", 45)]⟩, 1⟩

/-- A ready manager whose offline queue holds `[qA, qB]`. -/
def stQ : ManagerState := ⟨true, true, store0, [qA, qB], 2⟩

/-- Sample stored tracking document on the platform side. -/
def trackE : ITracking := ⟨"u1", "2024-01-01", 120, [("go", 120)]⟩

/-! ### Association-list lemmas -/

theorem jsGet_jsSet (l : List (String × Int)) (k : String) (v : Int)
    (k' : String) :
    jsGet (jsSet l k v) k' = if k' = k then some v else jsGet l k' := by
  induction l with
  | nil =>
    simp only [jsSet, jsGet]
    by_cases h : k = k'
    · subst h; simp
    · rw [if_neg h, if_neg (fun hc => h hc.symm)]
  | cons kv rest ih =>
    obtain ⟨k0, v0⟩ := kv
    simp only [jsSet]
    by_cases h0 : k0 = k
    · subst h0
      rw [if_pos rfl]
      simp only [jsGet]
      by_cases h : k0 = k'
      · subst h; simp
      · rw [if_neg h, if_neg (fun hc => h hc.symm), if_neg h]
    · rw [if_neg h0]
      simp only [jsGet]
      by_cases h : k0 = k'
      · subst h
        rw [if_pos rfl, if_neg h0, if_pos rfl]
      · rw [if_neg h, ih, if_neg h]

theorem jsGetD_jsSet (l : List (String × Int)) (k : String) (v : Int)
    (k' : String) :
    jsGetD (jsSet l k v) k' = if k' = k then v else jsGetD l k' := by
  unfold jsGetD
  rw [jsGet_jsSet]
  by_cases h : k' = k <;> simp [h]

theorem jsGetD_addLangs (D E : List (String × Int)) (k : String) :
    jsGetD (addLangs E D) k = jsGetD E k + sumAt D k := by
  induction D generalizing E with
  | nil => simp [addLangs, sumAt]
  | cons kv rest ih =>
    obtain ⟨k0, v0⟩ := kv
    rw [show addLangs E ((k0, v0) :: rest) =
        addLangs (jsSet E k0 (jsGetD E k0 + v0)) rest from rfl]
    rw [ih, jsGetD_jsSet]
    rcases eq_or_ne k k0 with h | h
    · subst h
      simp only [sumAt, if_true]
      ring
    · simp only [sumAt, if_neg h, if_neg (Ne.symm h)]
      ring

theorem sumAt_of_not_mem (l : List (String × Int)) (k : String)
    (h : k ∉ l.map Prod.fst) : sumAt l k = 0 := by
  induction l with
  | nil => rfl
  | cons kv rest ih =>
    obtain ⟨k0, v0⟩ := kv
    simp only [List.map_cons, List.mem_cons] at h
    push_neg at h
    simp [sumAt, Ne.symm h.1, ih h.2]

theorem sumAt_eq_jsGetD (l : List (String × Int)) (k : String)
    (h : keysNodup l) : sumAt l k = jsGetD l k := by
  induction l with
  | nil => rfl
  | cons kv rest ih =>
    obtain ⟨k0, v0⟩ := kv
    unfold keysNodup at h
    simp only [List.map_cons, List.nodup_cons] at h
    by_cases hk : k0 = k
    · subst hk
      rw [show sumAt ((k0, v0) :: rest) k0 = v0 + sumAt rest k0 by
        simp [sumAt]]
      rw [sumAt_of_not_mem rest k0 h.1]
      simp [jsGetD, jsGet]
    · rw [show sumAt ((k0, v0) :: rest) k = sumAt rest k by simp [sumAt, hk]]
      rw [ih h.2]
      simp [jsGetD, jsGet, hk]

theorem sumAt_jsSet (l : List (String × Int)) (k : String) (v : Int)
    (k' : String) :
    sumAt (jsSet l k (jsGetD l k + v)) k' =
      sumAt l k' + if k = k' then v else 0 := by
  induction l with
  | nil =>
    by_cases h : k = k' <;> simp [jsSet, jsGetD, jsGet, sumAt, h]
  | cons kv rest ih =>
    obtain ⟨k0, v0⟩ := kv
    by_cases h0 : k0 = k
    · subst h0
      rw [show jsSet ((k0, v0) :: rest) k0 (jsGetD ((k0, v0) :: rest) k0 + v) =
          (k0, v0 + v) :: rest by simp [jsSet, jsGetD, jsGet]]
      by_cases h : k0 = k' <;> simp [sumAt, h] <;> ring
    · rw [show jsSet ((k0, v0) :: rest) k (jsGetD ((k0, v0) :: rest) k + v) =
          (k0, v0) :: jsSet rest k (jsGetD rest k + v) by
        simp [jsSet, jsGetD, jsGet, h0]]
      simp only [sumAt, ih]
      ring

theorem sumAt_addLangs (D E : List (String × Int)) (k : String) :
    sumAt (addLangs E D) k = sumAt E k + sumAt D k := by
  induction D generalizing E with
  | nil => simp [addLangs, sumAt]
  | cons kv rest ih =>
    obtain ⟨k0, v0⟩ := kv
    rw [show addLangs E ((k0, v0) :: rest) =
        addLangs (jsSet E k0 (jsGetD E k0 + v0)) rest from rfl]
    rw [ih, sumAt_jsSet]
    by_cases h : k0 = k <;> simp [sumAt, h] <;> ring

theorem jsGet_mem (l : List (String × Int)) (k : String) (v : Int)
    (h : jsGet l k = some v) : (k, v) ∈ l := by
  induction l with
  | nil => simp [jsGet] at h
  | cons kv rest ih =>
    obtain ⟨k0, v0⟩ := kv
    by_cases h0 : k0 = k
    · subst h0
      simp only [jsGet, if_true, eq_self_iff_true, Option.some.injEq] at h
      subst h
      exact List.mem_cons_self _ _
    · simp only [jsGet, if_neg h0] at h
      exact List.mem_cons_of_mem _ (ih h)

theorem jsGetD_nonneg (l : List (String × Int)) (k : String)
    (h : valsNonneg l) : 0 ≤ jsGetD l k := by
  unfold jsGetD
  cases hg : jsGet l k with
  | none => simp
  | some v => simpa using h (k, v) (jsGet_mem l k v hg)

theorem valsNonneg_jsSet (l : List (String × Int)) (k : String) (v : Int)
    (hl : valsNonneg l) (hv : 0 ≤ v) : valsNonneg (jsSet l k v) := by
  induction l with
  | nil =>
    intro kv hkv
    simp only [jsSet, List.mem_singleton] at hkv
    simpa [hkv] using hv
  | cons kv0 rest ih =>
    obtain ⟨k0, v0⟩ := kv0
    have hl0 : 0 ≤ v0 := hl (k0, v0) (List.mem_cons_self _ _)
    have hlrest : valsNonneg rest :=
      fun kv hkv => hl kv (List.mem_cons_of_mem _ hkv)
    by_cases h0 : k0 = k
    · subst h0
      intro kv hkv
      simp only [jsSet, if_true, eq_self_iff_true, List.mem_cons] at hkv
      rcases hkv with h | h
      · simpa [h] using hv
      · exact hlrest kv h
    · intro kv hkv
      simp only [jsSet, if_neg h0, List.mem_cons] at hkv
      rcases hkv with h | h
      · simpa [h] using hl0
      · exact ih hlrest kv h

theorem addLangsClamped_eq_addLangs (D : List (String × Int)) :
    ∀ E : List (String × Int), valsNonneg E → valsNonneg D →
      addLangsClamped E D = addLangs E D := by
  induction D with
  | nil => intro E _ _; rfl
  | cons kv rest ih =>
    intro E hE hD
    obtain ⟨k0, v0⟩ := kv
    have hv0 : 0 ≤ v0 := hD (k0, v0) (List.mem_cons_self _ _)
    have hrest : valsNonneg rest :=
      fun kv hkv => hD kv (List.mem_cons_of_mem _ hkv)
    have hsum : 0 ≤ jsGetD E k0 + v0 :=
      add_nonneg (jsGetD_nonneg E k0 hE) hv0
    show addLangsClamped (jsSet E k0 (max 0 (jsGetD E k0 + v0))) rest =
      addLangs (jsSet E k0 (jsGetD E k0 + v0)) rest
    rw [max_eq_right hsum]
    exact ih _ (valsNonneg_jsSet E k0 _ hE hsum) hrest

theorem valsNonneg_addLangsClamped (D : List (String × Int)) :
    ∀ E : List (String × Int), valsNonneg E →
      valsNonneg (addLangsClamped E D) := by
  induction D with
  | nil => intro E hE; exact hE
  | cons kv rest ih =>
    intro E hE
    obtain ⟨k0, v0⟩ := kv
    exact ih _ (valsNonneg_jsSet E k0 _ hE (le_max_left 0 _))

/-! ### Substring lemmas for the failure classifier -/

theorem isPrefixOf_map (f : Char → Char) (p : List Char) :
    ∀ l : List Char, p.isPrefixOf l = true →
      (p.map f).isPrefixOf (l.map f) = true := by
  induction p with
  | nil => intro l _; simp [List.isPrefixOf]
  | cons c cs ih =>
    intro l h
    cases l with
    | nil => simp [List.isPrefixOf] at h
    | cons d ds =>
      simp only [List.isPrefixOf, Bool.and_eq_true, beq_iff_eq] at h
      simp only [List.map_cons, List.isPrefixOf, Bool.and_eq_true, beq_iff_eq]
      exact ⟨by rw [h.1], ih ds h.2⟩

theorem containsSub_map (f : Char → Char) (p : List Char) :
    ∀ l : List Char, containsSub p l = true →
      containsSub (p.map f) (l.map f) = true := by
  intro l
  induction l with
  | nil =>
    intro h
    simp only [containsSub, List.isEmpty_iff] at h ⊢
    simp [h]
  | cons c rest ih =>
    intro h
    simp only [containsSub, Bool.or_eq_true] at h
    simp only [List.map_cons, containsSub, Bool.or_eq_true]
    rcases h with h | h
    · exact Or.inl (by simpa using isPrefixOf_map f p (c :: rest) h)
    · exact Or.inr (ih h)

theorem strIncludes_etimedout_transient (m : String)
    (h : strIncludes m "ETIMEDOUT" = true) :
    looksLikeNetworkError m = true := by
  unfold strIncludes at h
  have h2 := containsSub_map Char.toLower _ _ h
  have hpat : ("ETIMEDOUT" : String).data.map Char.toLower =
      ("etimedout" : String).data := by decide
  rw [hpat] at h2
  have h3 : strIncludes (lowerStr m) "etimedout" = true := by
    unfold strIncludes lowerStr
    exact h2
  unfold looksLikeNetworkError
  simp [h3]

/-! ### Behaviour of one `writeDayData` call -/

theorem writeDayData_throws_network (st : ManagerState) (userId : String)
    (D : IDayData) (msg : String)
    (hinit : st.initialized = true) (hdb : st.dbReady = true)
    (hnet : looksLikeNetworkError msg = true) :
    writeDayData (.throws msg) st userId D = (false, enqueue st userId D) := by
  unfold writeDayData
  simp [hinit, hdb, hnet]

theorem writeDayData_throws_permanent (st : ManagerState) (userId : String)
    (D : IDayData) (msg : String)
    (hinit : st.initialized = true) (hdb : st.dbReady = true)
    (hperm : looksLikeNetworkError msg = false) :
    writeDayData (.throws msg) st userId D = (false, st) := by
  unfold writeDayData
  simp [hinit, hdb, hperm]

theorem writeDayData_ok_state (st : ManagerState) (userId : String)
    (D : IDayData)
    (hinit : st.initialized = true) (hdb : st.dbReady = true) :
    (writeDayData .ok st userId D).1 = true ∧
    (writeDayData .ok st userId D).2.initialized = true ∧
    (writeDayData .ok st userId D).2.dbReady = true ∧
    (writeDayData .ok st userId D).2.offlineQueue = st.offlineQueue ∧
    (writeDayData .ok st userId D).2.clock = st.clock := by
  unfold writeDayData
  rw [hinit, hdb]
  rcases h : st.store userId D.date with _ | E <;> simp [h, hinit, hdb]

theorem writeDayData_ok_store (st : ManagerState) (userId : String)
    (D : IDayData)
    (hinit : st.initialized = true) (hdb : st.dbReady = true) :
    (writeDayData .ok st userId D).2.store userId D.date =
      some (match st.store userId D.date with
            | some stored => mergeDayData stored D
            | none => D) := by
  unfold writeDayData
  rw [hinit, hdb]
  rcases h : st.store userId D.date with _ | E <;> simp [h, setStore]

/-! ### The claims -/

/-- C1: for every existing record `E` and delta `D`, `mergeDayData E D` has
`totalSeconds = E.totalSeconds + D.totalSeconds`, maps each language to
`E.languages[lang] + D.languages[lang]` with a missing entry on either side
counting as `0`, and carries `date` from `E`; in particular merging
`{totalSeconds:30, languages:{go:10, rust:20}}` into
`{totalSeconds:120, languages:{go:120}}` yields
`{totalSeconds:150, languages:{go:130, rust:20}}`. -/
theorem C1_mergeDayData_additive (E D : IDayData)
    (h : keysNodup D.languages) :
    (mergeDayData E D).date = E.date ∧
    (mergeDayData E D).totalSeconds = E.totalSeconds + D.totalSeconds ∧
    (∀ lang, jsGetD (mergeDayData E D).languages lang =
      jsGetD E.languages lang + jsGetD D.languages lang) ∧
    mergeDayData ⟨"2024-01-01", 120, [("go", 120)]⟩
        ⟨"2024-01-01", 30, [("go", 10), ("rust", 20)]⟩ =
      ⟨"2024-01-01", 150, [("go", 130), ("rust", 20)]⟩ := by
  refine ⟨rfl, rfl, ?_, by decide⟩
  intro lang
  show jsGetD (addLangs E.languages D.languages) lang = _
  rw [jsGetD_addLangs, sumAt_eq_jsGetD D.languages lang h]

theorem C1_mergeDayData_additive_witness :
    keysNodup dayD.languages ∧
    jsGetD (mergeDayData dayE dayD).languages "rust" =
      jsGetD dayE.languages "rust" + jsGetD dayD.languages "rust" :=
  ⟨by decide, (C1_mergeDayData_additive dayE dayD (by decide)).2.2.1 "rust"⟩

/-- C2: merging two deltas in sequence equals a single merge with their
field-wise combination (combining two deltas being `mergeDayData` itself):
the dates, the totals and the language mappings agree, so `mergeDayData` is
associative over sequential deltas. -/
theorem C2_mergeDayData_associative (E D1 D2 : IDayData) :
    (mergeDayData (mergeDayData E D1) D2).date =
      (mergeDayData E (mergeDayData D1 D2)).date ∧
    (mergeDayData (mergeDayData E D1) D2).totalSeconds =
      (mergeDayData E (mergeDayData D1 D2)).totalSeconds ∧
    ∀ lang, jsGetD (mergeDayData (mergeDayData E D1) D2).languages lang =
      jsGetD (mergeDayData E (mergeDayData D1 D2)).languages lang := by
  refine ⟨rfl, ?_, ?_⟩
  · show (E.totalSeconds + D1.totalSeconds) + D2.totalSeconds =
      E.totalSeconds + (D1.totalSeconds + D2.totalSeconds)
    ring
  · intro lang
    show jsGetD (addLangs (addLangs E.languages D1.languages)
        D2.languages) lang =
      jsGetD (addLangs E.languages
        (addLangs D1.languages D2.languages)) lang
    rw [jsGetD_addLangs, jsGetD_addLangs, jsGetD_addLangs, sumAt_addLangs]
    ring

/-- C3: with the backend ready and no record stored under
`(userId, D.date)`, a successful `writeDayData` call stores the delta
verbatim as the new day record and leaves the queue untouched: merge over an
absent existing record is the identity on the delta. -/
theorem C3_writeDayData_absent_stores_verbatim (st : ManagerState)
    (userId : String) (D : IDayData)
    (hinit : st.initialized = true) (hdb : st.dbReady = true)
    (habsent : st.store userId D.date = none) :
    (writeDayData .ok st userId D).1 = true ∧
    (writeDayData .ok st userId D).2.store userId D.date = some D ∧
    (writeDayData .ok st userId D).2.offlineQueue = st.offlineQueue ∧
    callOutcome st (writeDayData .ok st userId D) = .Success := by
  have hw : writeDayData .ok st userId D =
      (true, { st with store := setStore st.store userId D.date D }) := by
    unfold writeDayData
    rw [hinit, hdb]
    simp [habsent]
  rw [hw]
  refine ⟨rfl, ?_, rfl, by simp [callOutcome]⟩
  simp [setStore]

theorem C3_writeDayData_absent_stores_verbatim_witness :
    (st0.initialized = true ∧ st0.dbReady = true ∧
      st0.store "u1" dayD.date = none) ∧
    (writeDayData .ok st0 "u1" dayD).2.store "u1" dayD.date = some dayD :=
  ⟨⟨rfl, rfl, rfl⟩,
    (C3_writeDayData_absent_stores_verbatim st0 "u1" dayD rfl rfl rfl).2.1⟩

/-- C4: when the remote round-trip throws an error classified as a network
problem by the lower-cased-substring sniff, `writeDayData` enqueues the
original delta (queue grows by exactly one), leaves the store unchanged and
yields the `Queued` outcome; and any message containing `"ETIMEDOUT"` is so
classified. -/
theorem C4_writeDayData_transient_queues (st : ManagerState)
    (userId : String) (D : IDayData) (msg : String)
    (hinit : st.initialized = true) (hdb : st.dbReady = true)
    (hnet : looksLikeNetworkError msg = true) :
    (writeDayData (.throws msg) st userId D).2.offlineQueue =
      st.offlineQueue ++ [⟨userId, D.date, D, st.clock⟩] ∧
    (writeDayData (.throws msg) st userId D).2.offlineQueue.length =
      st.offlineQueue.length + 1 ∧
    (writeDayData (.throws msg) st userId D).2.store = st.store ∧
    callOutcome st (writeDayData (.throws msg) st userId D) = .Queued ∧
    ∀ m, strIncludes m "ETIMEDOUT" = true →
      looksLikeNetworkError m = true := by
  have hw := writeDayData_throws_network st userId D msg hinit hdb hnet
  rw [hw]
  refine ⟨rfl, by simp [enqueue], rfl, by simp [callOutcome, enqueue],
    fun m hm => strIncludes_etimedout_transient m hm⟩

theorem C4_writeDayData_transient_queues_witness :
    looksLikeNetworkError "connect ETIMEDOUT 142.250.4.95:443" = true ∧
    (writeDayData (.throws "connect ETIMEDOUT 142.250.4.95:443") st1 "u1"
        dayD).2.offlineQueue.length = st1.offlineQueue.length + 1 :=
  ⟨by decide,
    (C4_writeDayData_transient_queues st1 "u1" dayD
      "connect ETIMEDOUT 142.250.4.95:443" rfl rfl (by decide)).2.1⟩

/-- C6: when the remote round-trip throws an error with no network wording,
`writeDayData` returns `false` without enqueueing: the state is unchanged,
the queue keeps its length, and the outcome is `Failed`. -/
theorem C6_writeDayData_permanent_not_queued (st : ManagerState)
    (userId : String) (D : IDayData) (msg : String)
    (hinit : st.initialized = true) (hdb : st.dbReady = true)
    (hperm : looksLikeNetworkError msg = false) :
    writeDayData (.throws msg) st userId D = (false, st) ∧
    (writeDayData (.throws msg) st userId D).2.offlineQueue.length =
      st.offlineQueue.length ∧
    callOutcome st (writeDayData (.throws msg) st userId D) = .Failed := by
  have hw := writeDayData_throws_permanent st userId D msg hinit hdb hperm
  rw [hw]
  exact ⟨rfl, rfl, by simp [callOutcome]⟩

theorem C6_writeDayData_permanent_not_queued_witness :
    looksLikeNetworkError
        "PERMISSION_DENIED: Missing or insufficient permissions." = false ∧
    (writeDayData
        (.throws "PERMISSION_DENIED: Missing or insufficient permissions.")
        st1 "u1" dayD).2.offlineQueue.length = st1.offlineQueue.length :=
  ⟨by decide,
    (C6_writeDayData_permanent_not_queued st1 "u1" dayD
      "PERMISSION_DENIED: Missing or insufficient permissions."
      rfl rfl (by decide)).2.1⟩

/-- C7: if the backend connection has not been established, `writeDayData`
immediately enqueues the delta and yields `Queued`; the store is untouched
and the result does not depend on the remote behaviour at all (no remote
call is attempted). -/
theorem C7_writeDayData_not_ready_queues (st : ManagerState)
    (remote : RemoteResult) (userId : String) (D : IDayData)
    (hni : st.initialized = false) :
    writeDayData remote st userId D = (false, enqueue st userId D) ∧
    (writeDayData remote st userId D).2.offlineQueue =
      st.offlineQueue ++ [⟨userId, D.date, D, st.clock⟩] ∧
    (writeDayData remote st userId D).2.store = st.store ∧
    callOutcome st (writeDayData remote st userId D) = .Queued ∧
    ∀ remoteAlt, writeDayData remote st userId D =
      writeDayData remoteAlt st userId D := by
  have hw : ∀ r : RemoteResult,
      writeDayData r st userId D = (false, enqueue st userId D) := by
    intro r
    unfold writeDayData
    rw [hni]
    simp
  refine ⟨hw remote, ?_, ?_, ?_, fun r => (hw remote).trans (hw r).symm⟩
  · rw [hw remote]
    simp [enqueue]
  · rw [hw remote]
    simp [enqueue]
  · rw [hw remote]
    simp [callOutcome, enqueue]

theorem C7_writeDayData_not_ready_queues_witness :
    stOff.initialized = false ∧
    callOutcome stOff (writeDayData (.throws "anything") stOff "u1" dayD) =
      .Queued :=
  ⟨rfl,
    (C7_writeDayData_not_ready_queues stOff (.throws "anything") "u1" dayD
      rfl).2.2.2.1⟩

/-- C5: `drainOfflineQueue` snapshots and clears the queue before attempting
delivery, then resubmits each snapshot item in enqueue order; an item whose
resubmission fails with a network-class error is re-enqueued into the new
post-clear queue, so with queue `[A, B]`, A delivered and B failing
transiently, the queue afterwards holds exactly B's delta — not `[A, B]`,
not empty, not duplicated. -/
theorem C5_drainOfflineQueue_snapshot_requeue (st : ManagerState)
    (A B : IQueuedUpdate) (msg : String)
    (hq : st.offlineQueue = [A, B])
    (hinit : st.initialized = true) (hdb : st.dbReady = true)
    (hnet : looksLikeNetworkError msg = true) :
    ((drainOfflineQueue [.ok, .throws msg] st).offlineQueue.map
      fun q => (q.userId, q.data)) = [(B.userId, B.data)] := by
  have hne : st.offlineQueue.isEmpty = false := by rw [hq]; rfl
  unfold drainOfflineQueue
  rw [hne, hq]
  simp only [Bool.false_eq_true, if_false]
  have hCi : ManagerState.initialized { st with offlineQueue := [] } = true :=
    hinit
  have hCd : ManagerState.dbReady { st with offlineQueue := [] } = true := hdb
  obtain ⟨-, hAi, hAd, hAq, -⟩ :=
    writeDayData_ok_state { st with offlineQueue := [] } A.userId A.data
      hCi hCd
  have hloop : drainLoop [.ok, .throws msg] [A, B]
      { st with offlineQueue := [] } =
      (writeDayData (.throws msg)
        (writeDayData .ok { st with offlineQueue := [] } A.userId A.data).2
        B.userId B.data).2 := rfl
  rw [hloop,
    writeDayData_throws_network
      (writeDayData .ok { st with offlineQueue := [] } A.userId A.data).2
      B.userId B.data msg hAi hAd hnet]
  have hAq0 : (writeDayData .ok { st with offlineQueue := [] } A.userId
      A.data).2.offlineQueue = [] := hAq
  simp [enqueue, hAq0]

theorem C5_drainOfflineQueue_snapshot_requeue_witness :
    (stQ.offlineQueue = [qA, qB] ∧
      looksLikeNetworkError "read ETIMEDOUT" = true) ∧
    ((drainOfflineQueue [.ok, .throws "read ETIMEDOUT"] stQ).offlineQueue.map
      fun q => (q.userId, q.data)) = [(qB.userId, qB.data)] :=
  ⟨⟨rfl, by decide⟩,
    C5_drainOfflineQueue_snapshot_requeue stQ qA qB "read ETIMEDOUT"
      rfl rfl rfl (by decide)⟩

/-- C8: two independent successful `writeDayData` calls with the same delta
`D` against the same `(userId, date)` key double-count: the stored record
ends with `totalSeconds` and per-language counts equal to twice `D`'s values
plus whatever existed before — the merge is not idempotent for repeated
identical deltas. -/
theorem C8_double_submit_double_counts (st : ManagerState)
    (userId : String) (D : IDayData)
    (hinit : st.initialized = true) (hdb : st.dbReady = true)
    (hnodup : keysNodup D.languages) :
    (writeDayData .ok st userId D).1 = true ∧
    (writeDayData .ok (writeDayData .ok st userId D).2 userId D).1 = true ∧
    (∀ E, st.store userId D.date = some E →
      (writeDayData .ok (writeDayData .ok st userId D).2 userId
          D).2.store userId D.date =
        some (mergeDayData (mergeDayData E D) D) ∧
      (mergeDayData (mergeDayData E D) D).totalSeconds =
        E.totalSeconds + 2 * D.totalSeconds ∧
      ∀ lang, jsGetD (mergeDayData (mergeDayData E D) D).languages lang =
        jsGetD E.languages lang + 2 * jsGetD D.languages lang) ∧
    (st.store userId D.date = none →
      (writeDayData .ok (writeDayData .ok st userId D).2 userId
          D).2.store userId D.date = some (mergeDayData D D) ∧
      (mergeDayData D D).totalSeconds = 2 * D.totalSeconds ∧
      ∀ lang, jsGetD (mergeDayData D D).languages lang =
        2 * jsGetD D.languages lang) := by
  obtain ⟨h1, hAi, hAd, -, -⟩ := writeDayData_ok_state st userId D hinit hdb
  obtain ⟨h2, -, -, -, -⟩ :=
    writeDayData_ok_state (writeDayData .ok st userId D).2 userId D hAi hAd
  refine ⟨h1, h2, ?_, ?_⟩
  · intro E hE
    have hs1 : (writeDayData .ok st userId D).2.store userId D.date =
        some (mergeDayData E D) := by
      rw [writeDayData_ok_store st userId D hinit hdb]
      simp [hE]
    have hs2 := writeDayData_ok_store (writeDayData .ok st userId D).2
      userId D hAi hAd
    rw [hs1] at hs2
    refine ⟨hs2, ?_, ?_⟩
    · show (E.totalSeconds + D.totalSeconds) + D.totalSeconds =
        E.totalSeconds + 2 * D.totalSeconds
      ring
    · intro lang
      show jsGetD (addLangs (addLangs E.languages D.languages)
          D.languages) lang = _
      rw [jsGetD_addLangs, jsGetD_addLangs,
        sumAt_eq_jsGetD D.languages lang hnodup]
      ring
  · intro hE
    have hs1 : (writeDayData .ok st userId D).2.store userId D.date =
        some D := by
      rw [writeDayData_ok_store st userId D hinit hdb]
      simp [hE]
    have hs2 := writeDayData_ok_store (writeDayData .ok st userId D).2
      userId D hAi hAd
    rw [hs1] at hs2
    refine ⟨hs2, ?_, ?_⟩
    · show D.totalSeconds + D.totalSeconds = 2 * D.totalSeconds
      ring
    · intro lang
      show jsGetD (addLangs D.languages D.languages) lang = _
      rw [jsGetD_addLangs, sumAt_eq_jsGetD D.languages lang hnodup]
      ring

theorem C8_double_submit_double_counts_witness :
    (st1.initialized = true ∧ keysNodup dayD.languages ∧
      st1.store "u1" dayD.date = some dayE) ∧
    (writeDayData .ok (writeDayData .ok st1 "u1" dayD).2 "u1"
        dayD).2.store "u1" dayD.date =
      some (mergeDayData (mergeDayData dayE dayD) dayD) :=
  ⟨⟨rfl, by decide, by decide⟩,
    ((C8_double_submit_double_counts st1 "u1" dayD rfl rfl
      (by decide)).2.2.1 dayE (by decide)).1⟩

/-- C9: on non-negative data, the extension's `mergeDayData` and the HTTP
API's `Tracking.mergeTrackingData` compute the same result: equal
`totalSeconds` and equal language-to-seconds mappings (the API's `Map` and
the extension's plain object embedded as the same association list, compared
both literally and pointwise). -/
theorem C9_mergeTrackingData_agrees_with_mergeDayData
    (apiUserId apiDate : String) (E : ITracking) (D : IDayData)
    (hE : valsNonneg E.languages) (hD : valsNonneg D.languages)
    (hDtot : 0 ≤ D.totalSeconds) :
    (mergeTrackingData (some E) apiUserId apiDate D.totalSeconds
        D.languages).totalSeconds =
      (mergeDayData ⟨E.date, E.totalSeconds, E.languages⟩ D).totalSeconds ∧
    (mergeTrackingData (some E) apiUserId apiDate D.totalSeconds
        D.languages).languages =
      (mergeDayData ⟨E.date, E.totalSeconds, E.languages⟩ D).languages ∧
    ∀ lang,
      jsGetD (mergeTrackingData (some E) apiUserId apiDate D.totalSeconds
          D.languages).languages lang =
        jsGetD (mergeDayData ⟨E.date, E.totalSeconds, E.languages⟩
          D).languages lang := by
  have hl : addLangsClamped E.languages D.languages =
      addLangs E.languages D.languages :=
    addLangsClamped_eq_addLangs D.languages E.languages hE hD
  refine ⟨rfl, hl, ?_⟩
  intro lang
  show jsGetD (addLangsClamped E.languages D.languages) lang =
    jsGetD (addLangs E.languages D.languages) lang
  rw [hl]

theorem C9_mergeTrackingData_agrees_with_mergeDayData_witness :
    (valsNonneg trackE.languages ∧ valsNonneg dayD.languages ∧
      0 ≤ dayD.totalSeconds) ∧
    (mergeTrackingData (some trackE) "u1" "2024-01-01" dayD.totalSeconds
        dayD.languages).languages =
      (mergeDayData ⟨trackE.date, trackE.totalSeconds, trackE.languages⟩
        dayD).languages :=
  ⟨⟨by decide, by decide, by decide⟩,
    (C9_mergeTrackingData_agrees_with_mergeDayData "u1" "2024-01-01"
      trackE dayD (by decide) (by decide) (by decide)).2.1⟩

/-- C10: in `Tracking.mergeTrackingData` every merged per-language count is
clamped with `Math.max(0, current + incoming)`, so from an existing document
with non-negative counts the merged languages map contains no negative value
even when the incoming mapping has negative entries, while the merged
`totalSeconds` is plain addition with no such clamp. -/
theorem C10_mergeTrackingData_clamps_languages (apiUserId apiDate : String)
    (E : ITracking) (tot : Int) (langs : List (String × Int))
    (hE : valsNonneg E.languages) :
    valsNonneg (mergeTrackingData (some E) apiUserId apiDate tot
      langs).languages ∧
    (mergeTrackingData (some E) apiUserId apiDate tot langs).totalSeconds =
      E.totalSeconds + tot :=
  ⟨valsNonneg_addLangsClamped langs E.languages hE, rfl⟩

theorem C10_mergeTrackingData_clamps_languages_witness :
    valsNonneg trackE.languages ∧
    (valsNonneg (mergeTrackingData (some trackE) "u1" "2024-01-01" (-5)
        [("go", -200), ("py", 3)]).languages ∧
      (mergeTrackingData (some trackE) "u1" "2024-01-01" (-5)
        [("go", -200), ("py", 3)]).totalSeconds =
        trackE.totalSeconds + (-5)) :=
  ⟨by decide,
    C10_mergeTrackingData_clamps_languages "u1" "2024-01-01" trackE (-5)
      [("go", -200), ("py", 3)] (by decide)⟩
